import Mathlib

/-!
# Verification of the scoff AST visitor and scope-aware syntax checker

This file is a shallow embedding, in Lean 4, of the core of the `scoff`
library: the mutating AST visitor (`scoff/ast/visits/__init__.py`), the AST
node ownership model (`scoff/ast/__init__.py`), the exclusive visitor
(`scoff/ast/visits/exclusive.py`) and the scope-aware syntax checker
(`scoff/ast/visits/syntax.py`).  Pure functions of the source become Lean
functions; the in-place mutation of the Python source becomes explicit state
passing; Python exceptions become `Except` results (the source raises before
mutating in every modelled error path, so the state at raise time is the
input state, which the embedding returns alongside the error where the
post-error state is observable).

Modelling notes, kept next to the definitions they concern:
* Python object identity (the `ret != to_visit` checks of the visitor, the
  identity-keyed scope archive and visited set) is modelled by a numeric
  node id (`nid`); a well-formed heap assigns distinct ids to distinct
  objects, so id equality coincides with identity.
* Python `dict` / `OrderedDict` become insertion-ordered association lists;
  `collections.deque` becomes a list in left-to-right order (append at the
  right, pop from the right, iteration from the left).
-/

set_option linter.unusedVariables false

namespace Scoff

/-! ## Association lists (Python dict / OrderedDict) -/

/-- First-match lookup in an insertion-ordered association list. -/
def lookupA {κ α : Type} [DecidableEq κ] : List (κ × α) → κ → Option α
  | [], _ => none
  | (k, v) :: rest, key => if k = key then some v else lookupA rest key

/-- Key membership of an ordered dict (Python `k in d`). -/
def memA {κ α : Type} [DecidableEq κ] (l : List (κ × α)) (k : κ) : Bool :=
  (lookupA l k).isSome

/-- `d[k] = v` on an ordered dict: overwrite in place if the key exists,
append otherwise. -/
def updateA {κ α : Type} [DecidableEq κ] : List (κ × α) → κ → α → List (κ × α)
  | [], k, v => [(k, v)]
  | (k0, v0) :: rest, k, v =>
      if k0 = k then (k, v) :: rest else (k0, v0) :: updateA rest k v

theorem lookupA_append_left {κ α : Type} [DecidableEq κ]
    {l : List (κ × α)} (m : List (κ × α)) {k : κ} {v : α}
    (h : lookupA l k = some v) : lookupA (l ++ m) k = some v := by
  induction l with
  | nil => simp [lookupA] at h
  | cons hd tl ih =>
      obtain ⟨k0, v0⟩ := hd
      by_cases hk : k0 = k <;> simp [lookupA, hk] at h ⊢ <;> simp_all [ih]

theorem lookupA_append_fresh {κ α : Type} [DecidableEq κ]
    {l : List (κ × α)} {k : κ} (h : lookupA l k = none) (v : α) :
    lookupA (l ++ [(k, v)]) k = some v := by
  induction l with
  | nil => simp [lookupA]
  | cons hd tl ih =>
      obtain ⟨k0, v0⟩ := hd
      by_cases hk : k0 = k <;> simp [lookupA, hk] at h ⊢
      exact ih h

theorem isSome_lookupA_append {κ α : Type} [DecidableEq κ]
    {l : List (κ × α)} (m : List (κ × α)) {k : κ}
    (h : (lookupA l k).isSome) : (lookupA (l ++ m) k).isSome := by
  cases hl : lookupA l k with
  | none => simp [hl] at h
  | some v => simp [lookupA_append_left m hl]

theorem lookupA_updateA_self {κ α : Type} [DecidableEq κ]
    (l : List (κ × α)) (k : κ) (v : α) : lookupA (updateA l k v) k = some v := by
  induction l with
  | nil => simp [updateA, lookupA]
  | cons hd tl ih =>
      obtain ⟨k0, v0⟩ := hd
      by_cases h : k0 = k <;> simp [updateA, lookupA, h, ih]

theorem lookupA_updateA_ne {κ α : Type} [DecidableEq κ]
    (l : List (κ × α)) {k k' : κ} (v : α) (h : k ≠ k') :
    lookupA (updateA l k v) k' = lookupA l k' := by
  induction l with
  | nil => simp [updateA, lookupA, h]
  | cons hd tl ih =>
      obtain ⟨k0, v0⟩ := hd
      by_cases h0 : k0 = k
      · subst h0; simp [updateA, lookupA, h]
      · simp [updateA, lookupA, h0, ih]

theorem isSome_lookupA_updateA {κ α : Type} [DecidableEq κ]
    {l : List (κ × α)} {k k' : κ} (v : α) (h : (lookupA l k').isSome) :
    (lookupA (updateA l k v) k').isSome := by
  by_cases hk : k = k'
  · subst hk; simp [lookupA_updateA_self]
  · rw [lookupA_updateA_ne l v hk]; exact h

theorem isSome_lookupA_of_updateA {κ α : Type} [DecidableEq κ]
    {l : List (κ × α)} {k k' : κ} {v : α}
    (h : (lookupA (updateA l k v) k').isSome) :
    (lookupA l k').isSome ∨ k' = k := by
  by_cases hk : k = k'
  · exact Or.inr hk.symm
  · rw [lookupA_updateA_ne l v hk] at h; exact Or.inl h

/-! ## Syntax checker state (`SyntaxChecker`, `scoff/ast/visits/syntax.py`)

Symbols are AST nodes; the embedding stores a node's identity (`Nat` id)
as the dict value.  A symbol table (`_collected_globals`,
`_collected_locals`, each scope of `_collected_scopes`) is an ordered
dict `name -> node`; `_collected_scopes` is an ordered dict
`opening-node -> (closing-node, table)` keyed by node identity;
`_scope_stack` is a deque of `(scope-node, saved-outer-locals)` pairs,
kept in left-to-right (oldest-first) order: `append` adds at the right,
`pop` removes from the right, and iteration starts at the left. -/

/-- A symbol table: ordered dict from name to declaring node id. -/
abbrev SymTable : Type := List (String × Nat)

/-- The mutable state of a `SyntaxChecker` (fields `_collected_globals`,
`_collected_locals`, `_collected_scopes`, `_scope_stack`, `_pass_run`). -/
structure ChkState where
  globals : SymTable
  locals : SymTable
  scopes : List (Nat × (Nat × SymTable))
  stack : List (Nat × SymTable)
  passRun : Bool
deriving Repr, DecidableEq

/-- State after `SyntaxChecker._initialize` with no initial symbols. -/
def initChkState : ChkState :=
  { globals := [], locals := [], scopes := [], stack := [], passRun := false }

/-- Errors raised by the checker.  `SyntaxChecker._collect_symbol` raises
`SyntaxCheckerError` with codes 10 (global redefined), 11 (local
redefined) and 12 (invalid identifier); an exit of an empty scope stack
would be an uncaught `IndexError` in `deque.pop`. -/
inductive ChkErr : Type where
  | globalRedefined : String → ChkErr
  | localRedefined : String → ChkErr
  | invalidIdentifier : String → ChkErr
  | emptyScopeStack : ChkErr
  | outOfFuel : ChkErr
deriving Repr, DecidableEq

/-- `SyntaxChecker._enter_scope`.  If the scope node is in the archive,
push `(node, current locals)` and restore the archived locals; otherwise
push and start a fresh empty locals table.  (The source restores the
archived `OrderedDict` object itself; the embedding restores its value.
The two diverge only when a later pass inserts a new name into a restored
table, which no modelled run does.) -/
def enter_scope (s : ChkState) (loc : Nat) : ChkState :=
  match lookupA s.scopes loc with
  | some (_endLoc, archived) =>
      { s with stack := s.stack ++ [(loc, s.locals)], locals := archived }
  | none =>
      { s with stack := s.stack ++ [(loc, s.locals)], locals := [] }

/-- `SyntaxChecker._exit_scope`.  On the first pass (`_pass_run` false)
snapshot the closing locals into the archive keyed by the opening node,
then pop; on later passes just pop. -/
def exit_scope (s : ChkState) (loc : Nat) : Except ChkErr ChkState :=
  match s.stack.getLast? with
  | none => .error .emptyScopeStack
  | some (enterLoc, outer) =>
      if s.passRun = false then
        .ok { s with
              scopes := updateA s.scopes enterLoc (loc, s.locals),
              stack := s.stack.dropLast,
              locals := outer }
      else
        .ok { s with stack := s.stack.dropLast, locals := outer }

/-- `SyntaxChecker._collect_symbol`.  `vi` is `is_valid_identifier`
(always true unless a subclass declares `IDENTIFIER_REGEX`).  Returns the
state as it stands when an exception is raised; every raise in the source
happens before any table mutation, so that state is the input state. -/
def collect_symbol (vi : String → Bool) (s : ChkState) (name : String)
    (node : Nat) (globl : Bool) (ignoreRedefine : Bool) :
    ChkState × Option ChkErr :=
  if vi name = false then
    (s, some (.invalidIdentifier name))
  else if s.stack.length = 0 ∨ globl = true then
    -- global symbol
    if memA s.globals name ∧ ignoreRedefine = false then
      (s, some (.globalRedefined name))
    else if memA s.globals name = false then
      ({ s with globals := s.globals ++ [(name, node)] }, none)
    else (s, none)
  else
    if memA s.locals name ∧ ignoreRedefine = false then
      (s, some (.localRedefined name))
    else if memA s.locals name = false then
      ({ s with locals := s.locals ++ [(name, node)] }, none)
    else (s, none)

/-- The loop `for location, scope in self._scope_stack` of
`scoped_symbol_lookup`: scans the deque from the left, i.e. the
oldest (outermost) frame first. -/
def findStack : List (Nat × SymTable) → String → Option Nat
  | [], _ => none
  | (_, scope) :: rest, name =>
      match lookupA scope name with
      | some v => some v
      | none => findStack rest name

/-- `SyntaxChecker.scoped_symbol_lookup`: current locals first, then the
scope-stack frames in deque iteration order, then the globals. -/
def scoped_symbol_lookup (s : ChkState) (name : String) : Option Nat :=
  match lookupA s.locals name with
  | some v => some v
  | none =>
      match findStack s.stack name with
      | some v => some v
      | none => lookupA s.globals name

/-- Modelled from the spec (for comparison with `scoped_symbol_lookup`):
the spec's claimed lookup order searches the current locals first, then
each enclosing open frame outward in most-recent-first order, then the
global table.  Most-recent-first over the deque is right-to-left, i.e.
the reversed stack. -/
def scoped_symbol_lookup_claimed (s : ChkState) (name : String) : Option Nat :=
  match lookupA s.locals name with
  | some v => some v
  | none =>
      match findStack s.stack.reverse name with
      | some v => some v
      | none => lookupA s.globals name

/-- `SyntaxChecker.report_symbols`: a dict with key `"globals"` for the
global table and one key `"scope_<node>"` per archived scope. -/
def report_symbols (s : ChkState) : List (String × SymTable) :=
  ("globals", s.globals) ::
    s.scopes.map (fun p => ("scope_" ++ toString p.fst, p.snd.snd))

/-! ## The checker's traversal

A checker pass is the generic visitor walk specialised by
`SyntaxChecker._visit_pre_default` / `_visit_default`: on a node kind with
no explicit callback, entry calls `_enter_scope` when the node is a scope
marker and exit calls `_exit_scope`; a node kind with an explicit
`visit_` callback runs that callback at post-visit instead of the default
(so such a kind does not auto-exit a scope).  The common explicit
callback for symbol collection is `AutoCollect`-style: call
`_collect_symbol(name, node)` and return the node unchanged.

`isScope` models `isinstance(node, ScopeMixin)`.  `ScopeMixin`
(`scoff/ast/visits/scope.py`) is not among the provided sources; modelled
from the spec, which describes it as a pure capability marker on node
kinds ("introduces a scope"), it is a boolean attribute of the node.

For the checker only the depth-first visit order of the nodes matters,
not which named slot holds which child, so a checker-view node carries
its visitable children as one ordered list. -/

/-- A node as the checker sees it: identity, scope-marker flag, an
optional symbol collection performed by its explicit post-visit callback
(name and the `ignore_redefine` flag passed to `_collect_symbol`), and
the visitable children in declaration order. -/
inductive CNode : Type where
  | mk : Nat → Bool → Option (String × Bool) → List CNode → CNode

def CNode.nid : CNode → Nat
  | .mk n _ _ _ => n

def CNode.isScope : CNode → Bool
  | .mk _ b _ _ => b

def CNode.collects : CNode → Option (String × Bool)
  | .mk _ _ c _ => c

def CNode.children : CNode → List CNode
  | .mk _ _ _ cs => cs

/-- Sequential traversal of a list of children, threading the state and
propagating the first error, parameterised by the per-node visit. -/
def chkListGo (rec : ChkState → CNode → Except ChkErr ChkState) :
    ChkState → List CNode → Except ChkErr ChkState
  | s, [] => .ok s
  | s, c :: rest =>
      match rec s c with
      | .ok s1 => chkListGo rec s1 rest
      | .error e => .error e

/-- One checker pass over a node: enter scope at pre-visit (default
pre-visit behaviour), visit the children, then at post-visit either run
the explicit collecting callback or, on the default path, exit the scope.
The checker unwraps `VisitError` back to the embedded
`SyntaxCheckerError` at the `visit` boundary (see `find_embedded` below),
so the pass reports the domain error directly.  Structural recursion is
on a fuel bound on the visit depth; all theorems below either use runs
deep enough for their tree or take a successful run as hypothesis. -/
def chkVisitNode (vi : String → Bool) : Nat → ChkState → CNode →
    Except ChkErr ChkState
  | 0, _, _ => .error .outOfFuel
  | fuel + 1, s, .mk nid isScope collects children =>
      let s1 := cond isScope (enter_scope s nid) s
      match chkListGo (chkVisitNode vi fuel) s1 children with
      | .error e => .error e
      | .ok s2 =>
          match collects with
          | some (name, ign) =>
              match collect_symbol vi s2 name nid false ign with
              | (s3, none) => .ok s3
              | (_, some e) => .error e
          | none => cond isScope (exit_scope s2 nid) (.ok s2)

/-- `SyntaxChecker.visit(node)` with the default `flag_run=True`: run the
pass, then set `_pass_run`. -/
def checkerRun (vi : String → Bool) (fuel : Nat) (s : ChkState)
    (t : CNode) : Except ChkErr ChkState :=
  match chkVisitNode vi fuel s t with
  | .ok s1 => .ok { s1 with passRun := true }
  | .error e => .error e

mutual

/-- Scope-marker node ids of a tree, in pre-order. -/
def scopeNids : CNode → List Nat
  | .mk nid isScope _ children =>
      (if isScope then [nid] else []) ++ scopeNidsL children

/-- Scope-marker node ids of a forest. -/
def scopeNidsL : List CNode → List Nat
  | [] => []
  | c :: rest => scopeNids c ++ scopeNidsL rest

end

mutual

/-- Well-formed checker tree: no node kind both introduces a scope and
has an explicit collecting callback (a scope-marker kind with its own
callback would bypass the default post-visit and never close its scope). -/
def scopedWf : CNode → Bool
  | .mk _ isScope collects children =>
      (!(isScope && collects.isSome)) && scopedWfL children

def scopedWfL : List CNode → Bool
  | [] => true
  | c :: rest => scopedWf c && scopedWfL rest

end

mutual

/-- All collecting callbacks of the tree pass `ignore_redefine=True`
(the idempotent re-declaration mode the source provides for repeated
passes). -/
def allIgnore : CNode → Bool
  | .mk _ _ collects children =>
      (match collects with
       | some (_, ign) => ign
       | none => true) && allIgnoreL children

def allIgnoreL : List CNode → Bool
  | [] => true
  | c :: rest => allIgnore c && allIgnoreL rest

end

/-! ## Structure of a successful first checker pass

`Shape s s' nids` records how one successful pass over a (sub)tree whose
scope-marker ids are `nids` relates its entry state `s` to its final
state `s'`: the scope stack and the pass flag are restored, the symbol
tables only gain names, and the archive changes only at keys in `nids`. -/

/-- Key-set inclusion of two symbol tables. -/
def KeySub (a b : SymTable) : Prop :=
  ∀ k, (lookupA a k).isSome = true → (lookupA b k).isSome = true

theorem keySub_refl (a : SymTable) : KeySub a a := fun _ h => h

theorem keySub_trans {a b c : SymTable} (h1 : KeySub a b) (h2 : KeySub b c) :
    KeySub a c := fun k h => h2 k (h1 k h)

/-- Relation between the entry and final state of one successful
first-pass visit of a subtree with scope-marker ids `nids`. -/
structure Shape (s s' : ChkState) (nids : List Nat) : Prop where
  stack_eq : s'.stack = s.stack
  passRun_eq : s'.passRun = s.passRun
  globals_sub : KeySub s.globals s'.globals
  locals_sub : KeySub s.locals s'.locals
  scopes_pres : ∀ loc, loc ∉ nids →
    lookupA s'.scopes loc = lookupA s.scopes loc
  scopes_char : ∀ loc, (lookupA s'.scopes loc).isSome = true →
    (lookupA s.scopes loc).isSome = true ∨ loc ∈ nids
  scopes_mono : ∀ loc, (lookupA s.scopes loc).isSome = true →
    (lookupA s'.scopes loc).isSome = true

theorem shape_refl (s : ChkState) (nids : List Nat) : Shape s s nids :=
  ⟨rfl, rfl, keySub_refl _, keySub_refl _, fun _ _ => rfl,
    fun _ h => Or.inl h, fun _ h => h⟩

theorem shape_trans {s t u : ChkState} {n1 n2 : List Nat}
    (h1 : Shape s t n1) (h2 : Shape t u n2) : Shape s u (n1 ++ n2) := by
  refine ⟨h2.stack_eq.trans h1.stack_eq, h2.passRun_eq.trans h1.passRun_eq,
    keySub_trans h1.globals_sub h2.globals_sub, keySub_trans h1.locals_sub h2.locals_sub,
    ?_, ?_, ?_⟩
  · intro loc hloc
    rw [List.mem_append] at hloc
    push_neg at hloc
    rw [h2.scopes_pres loc hloc.2, h1.scopes_pres loc hloc.1]
  · intro loc hloc
    rcases h2.scopes_char loc hloc with h | h
    · rcases h1.scopes_char loc h with h' | h'
      · exact Or.inl h'
      · exact Or.inr (List.mem_append.mpr (Or.inl h'))
    · exact Or.inr (List.mem_append.mpr (Or.inr h))
  · intro loc hloc
    exact h2.scopes_mono loc (h1.scopes_mono loc hloc)

/-- A successful `_collect_symbol` call preserves the stack, the pass
flag and the archive, and only grows the symbol tables. -/
theorem collect_symbol_ok_shape {vi : String → Bool} {s s' : ChkState}
    {name : String} {node : Nat} {globl ign : Bool}
    (h : collect_symbol vi s name node globl ign = (s', none)) :
    Shape s s' [] := by
  unfold collect_symbol at h
  by_cases hvi : vi name = false
  · simp [hvi] at h
  · simp only [hvi, if_false] at h
    by_cases hg : s.stack.length = 0 ∨ globl = true <;>
      simp only [hg, if_true, if_false] at h
    · by_cases hm : memA s.globals name ∧ ign = false <;>
        simp only [hm, if_true, if_false] at h
      · simp at h
      · by_cases hm2 : memA s.globals name = false <;>
          simp only [hm2, if_true, if_false] at h <;>
          rw [Prod.mk.injEq] at h <;> obtain ⟨h, -⟩ := h <;> subst h
        · exact ⟨rfl, rfl, fun k hk => isSome_lookupA_append _ hk,
            keySub_refl _, fun _ _ => rfl, fun _ h => Or.inl h,
            fun _ h => h⟩
        · exact shape_refl s []
    · by_cases hm : memA s.locals name ∧ ign = false <;>
        simp only [hm, if_true, if_false] at h
      · simp at h
      · by_cases hm2 : memA s.locals name = false <;>
          simp only [hm2, if_true, if_false] at h <;>
          rw [Prod.mk.injEq] at h <;> obtain ⟨h, -⟩ := h <;> subst h
        · exact ⟨rfl, rfl, keySub_refl _,
            fun k hk => isSome_lookupA_append _ hk, fun _ _ => rfl,
            fun _ h => Or.inl h, fun _ h => h⟩
        · exact shape_refl s []

/-- Sequential composition: `chkListGo` inherits the `Shape` relation
from its per-node visit. -/
theorem chkListGo_shape {rec : ChkState → CNode → Except ChkErr ChkState}
    (hrec : ∀ s c s', scopedWf c = true → rec s c = .ok s' →
      Shape s s' (scopeNids c)) :
    ∀ cs s s', scopedWfL cs = true → chkListGo rec s cs = .ok s' →
      Shape s s' (scopeNidsL cs) := by
  intro cs
  induction cs with
  | nil =>
      intro s s' _ h
      simp only [chkListGo] at h
      cases h
      exact shape_refl _ _
  | cons c rest ih =>
      intro s s' hwf h
      simp only [scopedWfL, Bool.and_eq_true] at hwf
      simp only [chkListGo] at h
      cases hc : rec s c with
      | error e => rw [hc] at h; simp at h
      | ok t1 =>
          rw [hc] at h
          simp only at h
          have h1 := hrec s c t1 hwf.1 hc
          have h2 := ih t1 s' hwf.2 h
          simpa [scopeNidsL] using shape_trans h1 h2

/-- One successful first-pass visit of a subtree restores the scope
stack and pass flag, only grows the symbol tables, and changes the
archive only at the subtree's own scope-marker ids. -/
theorem chkVisitNode_shape (vi : String → Bool) :
    ∀ fuel t s s', scopedWf t = true →
      chkVisitNode vi fuel s t = .ok s' → Shape s s' (scopeNids t) := by
  intro fuel
  induction fuel with
  | zero => intro t s s' _ h; simp [chkVisitNode] at h
  | succ fuel ih =>
      intro t s s' hwf h
      obtain ⟨nid, isScope, collects, children⟩ := t
      simp only [scopedWf, Bool.and_eq_true] at hwf
      simp only [chkVisitNode] at h
      cases hl : chkListGo (chkVisitNode vi fuel)
          (cond isScope (enter_scope s nid) s) children with
      | error e => rw [hl] at h; simp at h
      | ok s2 =>
          rw [hl] at h
          have hlist := chkListGo_shape
            (fun s c s' hc hr => ih c s s' hc hr) children _ s2 hwf.2 hl
          cases collects with
          | some p =>
              obtain ⟨name, ign⟩ := p
              -- a collecting kind is not a scope marker (well-formedness)
              have hsc : isScope = false := by
                cases isScope
                · rfl
                · simp at hwf
              subst hsc
              simp only [cond_false] at hl hlist h
              cases hcol : collect_symbol vi s2 name nid false ign with
              | mk s3 e =>
                  cases e with
                  | none =>
                      rw [hcol] at h
                      simp only at h
                      cases h
                      have hstep := collect_symbol_ok_shape hcol
                      have := shape_trans hlist hstep
                      simpa [scopeNids] using this
                  | some e => rw [hcol] at h; simp at h
          | none =>
              cases isScope with
              | false =>
                  simp only [cond_false] at hl hlist h
                  cases h
                  simpa [scopeNids] using hlist
              | true =>
                  simp only [cond_true] at hl hlist h
                  -- the stack after the children still ends with the
                  -- frame pushed by enter_scope
                  have hstk1 : (enter_scope s nid).stack =
                      s.stack ++ [(nid, s.locals)] := by
                    unfold enter_scope
                    cases harch : lookupA s.scopes nid with
                    | none => rfl
                    | some p => obtain ⟨a, b⟩ := p; rfl
                  have hstk2 : s2.stack = s.stack ++ [(nid, s.locals)] := by
                    rw [hlist.stack_eq, hstk1]
                  have hpr1 : (enter_scope s nid).passRun = s.passRun := by
                    unfold enter_scope
                    cases harch : lookupA s.scopes nid with
                    | none => rfl
                    | some p => obtain ⟨a, b⟩ := p; rfl
                  have hpr2 : s2.passRun = s.passRun := by
                    rw [hlist.passRun_eq, hpr1]
                  unfold exit_scope at h
                  rw [hstk2, List.getLast?_concat] at h
                  simp only at h
                  -- the entry state's globals/scopes survive enter_scope
                  have hglob0 : (enter_scope s nid).globals = s.globals := by
                    unfold enter_scope
                    cases harch : lookupA s.scopes nid with
                    | none => rfl
                    | some p => obtain ⟨a, b⟩ := p; rfl
                  have hglob1 : KeySub s.globals s2.globals := by
                    intro k hk
                    apply hlist.globals_sub
                    rw [hglob0]
                    exact hk
                  have hscopes0 : (enter_scope s nid).scopes = s.scopes := by
                    unfold enter_scope
                    cases harch : lookupA s.scopes nid with
                    | none => rfl
                    | some p => obtain ⟨a, b⟩ := p; rfl
                  have hmemnids : ∀ loc, loc ∉ scopeNids (CNode.mk nid true
                      none children) → loc ≠ nid ∧
                      loc ∉ scopeNidsL children := by
                    intro loc hloc
                    constructor
                    · intro hh
                      exact hloc (by simp [scopeNids, hh])
                    · intro hh
                      exact hloc (by simp [scopeNids, hh])
                  by_cases hpr : s2.passRun = false
                  · rw [if_pos hpr] at h
                    cases h
                    refine ⟨?_, ?_, ?_, ?_, ?_, ?_, ?_⟩
                    · show (s.stack ++ [(nid, s.locals)]).dropLast = s.stack
                      exact List.dropLast_concat ..
                    · show s2.passRun = s.passRun
                      exact hpr2
                    · show KeySub s.globals s2.globals
                      exact hglob1
                    · show KeySub s.locals s.locals
                      exact keySub_refl _
                    · intro loc hloc
                      obtain ⟨hne, hnotin⟩ := hmemnids loc hloc
                      show lookupA (updateA s2.scopes nid (nid, s2.locals))
                          loc = lookupA s.scopes loc
                      rw [lookupA_updateA_ne _ _ (fun hh => hne hh.symm)]
                      rw [hlist.scopes_pres loc hnotin, hscopes0]
                    · intro loc hloc
                      replace hloc : (lookupA (updateA s2.scopes nid
                          (nid, s2.locals)) loc).isSome = true := hloc
                      rcases isSome_lookupA_of_updateA hloc with hh | hh
                      · rcases hlist.scopes_char loc hh with hh' | hh'
                        · rw [hscopes0] at hh'
                          exact Or.inl hh'
                        · exact Or.inr (by
                            simp [scopeNids, List.mem_append, hh'])
                      · exact Or.inr (by simp [scopeNids, hh])
                    · intro loc hloc
                      show (lookupA (updateA s2.scopes nid (nid, s2.locals))
                          loc).isSome = true
                      apply isSome_lookupA_updateA
                      apply hlist.scopes_mono
                      rw [hscopes0]
                      exact hloc
                  · rw [if_neg hpr] at h
                    cases h
                    refine ⟨?_, ?_, ?_, ?_, ?_, ?_, ?_⟩
                    · show (s.stack ++ [(nid, s.locals)]).dropLast = s.stack
                      exact List.dropLast_concat ..
                    · show s2.passRun = s.passRun
                      exact hpr2
                    · show KeySub s.globals s2.globals
                      exact hglob1
                    · show KeySub s.locals s.locals
                      exact keySub_refl _
                    · intro loc hloc
                      obtain ⟨hne, hnotin⟩ := hmemnids loc hloc
                      show lookupA s2.scopes loc = lookupA s.scopes loc
                      rw [hlist.scopes_pres loc hnotin, hscopes0]
                    · intro loc hloc
                      rcases hlist.scopes_char loc hloc with hh | hh
                      · rw [hscopes0] at hh
                        exact Or.inl hh
                      · exact Or.inr (by
                          simp [scopeNids, List.mem_append, hh])
                    · intro loc hloc
                      apply hlist.scopes_mono
                      rw [hscopes0]
                      exact hloc

/-! ## A second pass over an unchanged tree is the identity

With every collecting callback in ignore-redefinition mode, a second
visit of the same tree from the final state of a successful first visit
(with `_pass_run` set) succeeds and returns its input state unchanged:
scope entries restore the archived locals, every collect finds its name
already present, and scope exits just pop. -/

/-- Hypotheses a second-pass state `u` must satisfy relative to a
first-pass run of a subtree from `s` to `s'`. -/
def SecondPassOk (rec : ChkState → CNode → Except ChkErr ChkState) : Prop :=
  ∀ c s s' u, scopedWf c = true → allIgnore c = true →
    (scopeNids c).Nodup →
    (∀ x ∈ scopeNids c, lookupA s.scopes x = none) →
    rec s c = .ok s' →
    s.passRun = false → u.passRun = true →
    (s.stack = [] ↔ u.stack = []) →
    KeySub s'.globals u.globals →
    KeySub s'.locals u.locals →
    (∀ loc, (lookupA s'.scopes loc).isSome = true →
      lookupA u.scopes loc = lookupA s'.scopes loc) →
    rec u c = .ok u

theorem chkListGo_second {rec : ChkState → CNode → Except ChkErr ChkState}
    (hrecShape : ∀ s c s', scopedWf c = true → rec s c = .ok s' →
      Shape s s' (scopeNids c))
    (hrecSP : SecondPassOk rec) :
    ∀ cs s s' u, scopedWfL cs = true → allIgnoreL cs = true →
      (scopeNidsL cs).Nodup →
      (∀ x ∈ scopeNidsL cs, lookupA s.scopes x = none) →
      chkListGo rec s cs = .ok s' →
      s.passRun = false → u.passRun = true →
      (s.stack = [] ↔ u.stack = []) →
      KeySub s'.globals u.globals →
      KeySub s'.locals u.locals →
      (∀ loc, (lookupA s'.scopes loc).isSome = true →
        lookupA u.scopes loc = lookupA s'.scopes loc) →
      chkListGo rec u cs = .ok u := by
  intro cs
  induction cs with
  | nil => intro s s' u _ _ _ _ _ _ _ _ _ _ _; rfl
  | cons c rest ih =>
      intro s s' u hwf hign hnd hfresh h hpr hupr hstk hglob hloc hagree
      simp only [scopedWfL, Bool.and_eq_true] at hwf
      simp only [allIgnoreL, Bool.and_eq_true] at hign
      simp only [scopeNidsL] at hnd hfresh
      rw [List.nodup_append] at hnd
      obtain ⟨hndc, hndr, hdisj⟩ := hnd
      simp only [chkListGo] at h
      cases hc : rec s c with
      | error e => rw [hc] at h; simp at h
      | ok t1 =>
          rw [hc] at h
          simp only at h
          have shC := hrecShape s c t1 hwf.1 hc
          have shR := chkListGo_shape hrecShape rest t1 s' hwf.2 h
          -- the archive entries present after c are untouched by rest
          have hagree1 : ∀ loc, (lookupA t1.scopes loc).isSome = true →
              lookupA u.scopes loc = lookupA t1.scopes loc := by
            intro loc hsome
            have hnotr : loc ∉ scopeNidsL rest := by
              rcases shC.scopes_char loc hsome with h0 | h0
              · intro hmem
                rw [hfresh loc (List.mem_append.mpr (Or.inr hmem))] at h0
                simp at h0
              · intro hmem
                exact hdisj h0 hmem
            have hpres := shR.scopes_pres loc hnotr
            have hsome' : (lookupA s'.scopes loc).isSome = true := by
              rw [hpres]; exact hsome
            rw [hagree loc hsome', hpres]
          have huc : rec u c = .ok u := by
            refine hrecSP c s t1 u hwf.1 hign.1 hndc
              (fun x hx => hfresh x (List.mem_append.mpr (Or.inl hx)))
              hc hpr hupr hstk
              (keySub_trans shR.globals_sub hglob)
              (keySub_trans shR.locals_sub hloc) hagree1
          have hur : chkListGo rec u rest = .ok u := by
            refine ih t1 s' u hwf.2 hign.2 hndr ?_ h ?_ hupr ?_ hglob hloc
              hagree
            · intro x hx
              have hnc : x ∉ scopeNids c := fun hmem => hdisj hmem hx
              rw [shC.scopes_pres x hnc]
              exact hfresh x (List.mem_append.mpr (Or.inr hx))
            · rw [shC.passRun_eq]; exact hpr
            · rw [shC.stack_eq]; exact hstk
          simp only [chkListGo, huc, hur]

/-- A successful ignore-mode collect leaves the collected name present
in the table matching the scope level at call time. -/
theorem collect_ignore_ok {vi : String → Bool} {s s2 : ChkState}
    {name : String} {nid : Nat}
    (h : collect_symbol vi s name nid false true = (s2, none)) :
    vi name = true ∧
    (s.stack.length = 0 → memA s2.globals name = true) ∧
    (s.stack.length ≠ 0 → memA s2.locals name = true) := by
  unfold collect_symbol at h
  by_cases hvi : vi name = false
  · simp [hvi] at h
  · have hvi' : vi name = true := by
      revert hvi; cases vi name <;> simp
    refine ⟨hvi', ?_, ?_⟩
    · intro hlen
      simp only [hvi', hlen, Bool.true_eq_false, if_false, true_or,
        if_true, and_false, Bool.false_eq_true, ite_false] at h
      by_cases hm : memA s.globals name = false
      · rw [if_pos hm] at h
        rw [Prod.mk.injEq] at h
        obtain ⟨h, -⟩ := h
        subst h
        show (lookupA (s.globals ++ [(name, nid)]) name).isSome = true
        rw [lookupA_append_fresh _ nid]
        · rfl
        · simpa [memA] using hm
      · rw [if_neg hm] at h
        rw [Prod.mk.injEq] at h
        obtain ⟨h, -⟩ := h
        subst h
        revert hm
        cases memA s.globals name <;> simp
    · intro hlen
      simp only [hvi', hlen, Bool.true_eq_false, if_false, false_or,
        and_false, Bool.false_eq_true, ite_false] at h
      by_cases hm : memA s.locals name = false
      · rw [if_pos hm] at h
        rw [Prod.mk.injEq] at h
        obtain ⟨h, -⟩ := h
        subst h
        show (lookupA (s.locals ++ [(name, nid)]) name).isSome = true
        rw [lookupA_append_fresh _ nid]
        · rfl
        · simpa [memA] using hm
      · rw [if_neg hm] at h
        rw [Prod.mk.injEq] at h
        obtain ⟨h, -⟩ := h
        subst h
        revert hm
        cases memA s.locals name <;> simp

/-- An ignore-mode collect of a name already present at the current
level is a no-op. -/
theorem collect_ignore_noop {vi : String → Bool} {u : ChkState}
    {name : String} (nid : Nat) (hvi : vi name = true)
    (hcase : (u.stack.length = 0 ∧ memA u.globals name = true) ∨
      (u.stack.length ≠ 0 ∧ memA u.locals name = true)) :
    collect_symbol vi u name nid false true = (u, none) := by
  unfold collect_symbol
  rcases hcase with ⟨hlen, hm⟩ | ⟨hlen, hm⟩
  · simp [hvi, hlen, hm]
  · simp [hvi, hlen, hm]

/-- Second pass over an unchanged subtree: under the stated relation to
the first pass's final state, the visit returns its input unchanged. -/
theorem chkVisitNode_second (vi : String → Bool) :
    ∀ fuel, SecondPassOk (chkVisitNode vi fuel) := by
  intro fuel
  induction fuel with
  | zero =>
      intro c s s' u _ _ _ _ h _ _ _ _ _ _
      simp [chkVisitNode] at h
  | succ fuel ih =>
      intro c s s' u hwf hign hnd hfresh h hpr hupr hstk hglob hloc hagree
      obtain ⟨nid, isScope, collects, children⟩ := c
      have hshape : ∀ s c s', scopedWf c = true →
          chkVisitNode vi fuel s c = .ok s' → Shape s s' (scopeNids c) :=
        fun s c s' hc hr => chkVisitNode_shape vi fuel c s s' hc hr
      simp only [scopedWf, Bool.and_eq_true] at hwf
      simp only [allIgnore, Bool.and_eq_true] at hign
      simp only [chkVisitNode] at h ⊢
      cases collects with
      | some p =>
          obtain ⟨name, ign⟩ := p
          have hsc : isScope = false := by
            cases isScope
            · rfl
            · simp at hwf
          subst hsc
          have hignt : ign = true := by simpa using hign.1
          subst hignt
          have hsn : scopeNids
              (CNode.mk nid false (some (name, true)) children) =
              scopeNidsL children := by simp [scopeNids]
          rw [hsn] at hnd hfresh
          simp only [cond_false] at h ⊢
          cases hl : chkListGo (chkVisitNode vi fuel) s children with
          | error e => rw [hl] at h; simp at h
          | ok s2 =>
              rw [hl] at h
              simp only at h
              cases hcol : collect_symbol vi s2 name nid false true with
              | mk s3 e =>
                  cases e with
                  | some e => rw [hcol] at h; simp at h
                  | none =>
                      rw [hcol] at h
                      simp only [Except.ok.injEq] at h
                      subst h
                      have shL := chkListGo_shape hshape children s s2
                        hwf.2 hl
                      have colShape := collect_symbol_ok_shape hcol
                      have props := collect_ignore_ok hcol
                      have hagree2 : ∀ loc,
                          (lookupA s2.scopes loc).isSome = true →
                          lookupA u.scopes loc = lookupA s2.scopes loc := by
                        intro loc hsome
                        have hpres := colShape.scopes_pres loc
                          (List.not_mem_nil loc)
                        have hsome' : (lookupA s3.scopes loc).isSome =
                            true := by rw [hpres]; exact hsome
                        rw [hagree loc hsome', hpres]
                      have hu_children :
                          chkListGo (chkVisitNode vi fuel) u children =
                            .ok u :=
                        chkListGo_second hshape ih
                          children s s2 u hwf.2 hign.2 hnd hfresh hl hpr
                          hupr hstk (keySub_trans colShape.globals_sub hglob)
                          (keySub_trans colShape.locals_sub hloc) hagree2
                      have hu_collect :
                          collect_symbol vi u name nid false true =
                            (u, none) := by
                        apply collect_ignore_noop nid props.1
                        by_cases hlen : s2.stack.length = 0
                        · left
                          have hse : s2.stack = s.stack := shL.stack_eq
                          have hsnil : s.stack = [] := by
                            rw [hse] at hlen
                            exact List.length_eq_zero.mp hlen
                          have hunil : u.stack = [] := hstk.mp hsnil
                          refine ⟨by simp [hunil], ?_⟩
                          have hm3 := props.2.1 hlen
                          exact hglob name hm3
                        · right
                          have hse : s2.stack = s.stack := shL.stack_eq
                          have hsne : s.stack ≠ [] := by
                            intro hh
                            rw [hse, hh] at hlen
                            simp at hlen
                          have hune : u.stack ≠ [] := by
                            intro hh
                            exact hsne (hstk.mpr hh)
                          refine ⟨?_, ?_⟩
                          · intro hh
                            exact hune (List.length_eq_zero.mp hh)
                          · have hm3 := props.2.2 hlen
                            exact hloc name hm3
                      rw [hu_children]
                      simp only
                      rw [hu_collect]
      | none =>
          cases isScope with
          | false =>
              have hsn : scopeNids (CNode.mk nid false none children) =
                  scopeNidsL children := by simp [scopeNids]
              rw [hsn] at hnd hfresh
              simp only [cond_false] at h ⊢
              cases hl : chkListGo (chkVisitNode vi fuel) s children with
              | error e => rw [hl] at h; simp at h
              | ok s2 =>
                  rw [hl] at h
                  simp only [Except.ok.injEq] at h
                  subst h
                  have hu_children :
                      chkListGo (chkVisitNode vi fuel) u children =
                        .ok u :=
                    chkListGo_second hshape ih
                      children s s2 u hwf.2 hign.2 hnd hfresh hl hpr hupr
                      hstk hglob hloc hagree
                  rw [hu_children]
          | true =>
              have hsn : scopeNids (CNode.mk nid true none children) =
                  nid :: scopeNidsL children := by simp [scopeNids]
              rw [hsn] at hnd hfresh
              simp only [cond_true] at h ⊢
              rw [List.nodup_cons] at hnd
              obtain ⟨hnidnot, hndc⟩ := hnd
              have hfreshn : lookupA s.scopes nid = none :=
                hfresh nid (by simp)
              have hfreshc : ∀ x ∈ scopeNidsL children,
                  lookupA s.scopes x = none := by
                intro x hx
                exact hfresh x (by simp [hx])
              have hs1 : enter_scope s nid =
                  { s with
                    stack := s.stack ++ [(nid, s.locals)],
                    locals := [] } := by
                unfold enter_scope
                rw [hfreshn]
              rw [hs1] at h
              cases hl : chkListGo (chkVisitNode vi fuel)
                  { s with
                    stack := s.stack ++ [(nid, s.locals)],
                    locals := [] } children with
              | error e => rw [hl] at h; simp at h
              | ok s2 =>
                  rw [hl] at h
                  simp only at h
                  have shL := chkListGo_shape hshape children _ s2 hwf.2 hl
                  have hs2stk : s2.stack = s.stack ++ [(nid, s.locals)] :=
                    shL.stack_eq
                  have hs2pr : s2.passRun = false := by
                    rw [shL.passRun_eq]; exact hpr
                  unfold exit_scope at h
                  rw [hs2stk, List.getLast?_concat] at h
                  simp only at h
                  rw [if_pos hs2pr] at h
                  simp only [Except.ok.injEq] at h
                  subst h
                  -- the scope was archived with its final locals
                  have hs'nid : lookupA
                      (updateA s2.scopes nid (nid, s2.locals)) nid =
                      some (nid, s2.locals) := lookupA_updateA_self ..
                  have hUarch : lookupA u.scopes nid =
                      some (nid, s2.locals) := by
                    rw [hagree nid (by simp [hs'nid]), hs'nid]
                  have hu1 : enter_scope u nid =
                      { u with
                        stack := u.stack ++ [(nid, u.locals)],
                        locals := s2.locals } := by
                    unfold enter_scope
                    rw [hUarch]
                  -- restored pass-2 state for the children
                  have hu_children :
                      chkListGo (chkVisitNode vi fuel)
                        { u with
                          stack := u.stack ++ [(nid, u.locals)],
                          locals := s2.locals } children =
                      .ok { u with
                            stack := u.stack ++ [(nid, u.locals)],
                            locals := s2.locals } := by
                    refine chkListGo_second hshape
                      ih children _ s2 _ hwf.2 hign.2 hndc ?_ hl ?_ ?_ ?_
                      ?_ ?_ ?_
                    · intro x hx
                      exact hfreshc x hx
                    · exact hpr
                    · exact hupr
                    · constructor
                      · intro hh; simp at hh
                      · intro hh; simp at hh
                    · intro k hk
                      apply hglob
                      exact hk
                    · intro k hk
                      exact hk
                    · intro loc hsome
                      have hne : loc ≠ nid := by
                        intro hh
                        subst hh
                        rcases shL.scopes_char loc hsome with h0 | h0
                        · rw [show ({ s with
                              stack := s.stack ++ [(loc, s.locals)],
                              locals := [] } : ChkState).scopes =
                              s.scopes from rfl, hfreshn] at h0
                          simp at h0
                        · exact hnidnot h0
                      have hpres : lookupA
                          (updateA s2.scopes nid (nid, s2.locals)) loc =
                          lookupA s2.scopes loc :=
                        lookupA_updateA_ne _ _ (fun hh => hne hh.symm)
                      have hsome' : (lookupA
                          (updateA s2.scopes nid (nid, s2.locals))
                          loc).isSome = true := by
                        rw [hpres]; exact hsome
                      rw [hagree loc hsome', hpres]
                  rw [hu1, hu_children]
                  simp only
                  unfold exit_scope
                  rw [show ({ u with
                      stack := u.stack ++ [(nid, u.locals)],
                      locals := s2.locals } : ChkState).stack =
                      u.stack ++ [(nid, u.locals)] from rfl,
                    List.getLast?_concat]
                  simp [hupr, List.dropLast_concat]
                  rw [← hupr]

/-! ## Claim C3: two-pass idempotence -/

/-- Claim C3, counterexample.  A tree whose single node collects the
symbol `"x"` with the default (non-ignoring) redefinition mode: the first
Checker run succeeds and archives the global, but the second run over
the unchanged tree (with the pass-completed flag set) raises
`GlobalNameRedefined` instead of raising no redefinition error, because
the second collect finds `"x"` already in the global table. -/
theorem checker_two_pass_default_cex :
    checkerRun (fun _ => true) 2 initChkState
        (CNode.mk 0 false (some ("x", false)) []) =
      .ok { globals := [("x", 0)], locals := [], scopes := [], stack := [],
            passRun := true } ∧
    checkerRun (fun _ => true) 2
        { globals := [("x", 0)], locals := [], scopes := [], stack := [],
          passRun := true }
        (CNode.mk 0 false (some ("x", false)) []) =
      .error (.globalRedefined "x") :=
  ⟨rfl, rfl⟩

/-- Claim C3 (amended): running the Checker over an unchanged tree twice,
where the first pass archives each closed scope keyed by its opening node
and the second pass (entered with the pass-completed flag set) restores
the archived locals on scope entry and pops without re-archiving on
exit, raises no redefinition error on the second run and produces
identical `report_symbols()` output after both runs — provided the
collecting callbacks request ignore-redefinition (the idempotent
re-declaration mode the source provides for repeated passes; with the
default mode the second run raises, see the counterexample).  The second
run is in fact the identity on the checker state. -/
theorem checker_two_pass_resume (vi : String → Bool) (fuel : Nat)
    (t : CNode) (s1 : ChkState)
    (hwf : scopedWf t = true) (hign : allIgnore t = true)
    (hnd : (scopeNids t).Nodup)
    (h1 : checkerRun vi fuel initChkState t = .ok s1) :
    ∃ s2, checkerRun vi fuel s1 t = .ok s2 ∧
      report_symbols s2 = report_symbols s1 ∧ s2 = s1 := by
  unfold checkerRun at h1
  cases h0 : chkVisitNode vi fuel initChkState t with
  | error e => rw [h0] at h1; simp at h1
  | ok s0 =>
      rw [h0] at h1
      simp only [Except.ok.injEq] at h1
      subst h1
      have sh := chkVisitNode_shape vi fuel t initChkState s0 hwf h0
      have h2 : chkVisitNode vi fuel { s0 with passRun := true } t =
          .ok { s0 with passRun := true } := by
        refine chkVisitNode_second vi fuel t initChkState s0
          { s0 with passRun := true } hwf hign hnd ?_ h0 rfl rfl ?_
          (keySub_refl _) (keySub_refl _) (fun loc _ => rfl)
        · intro x _
          rfl
        · constructor
          · intro _
            show s0.stack = []
            rw [sh.stack_eq]
            rfl
          · intro _
            rfl
      refine ⟨{ s0 with passRun := true }, ?_, rfl, rfl⟩
      unfold checkerRun
      rw [h2]

/-- Witness for `checker_two_pass_resume`: a scope node whose child
collects `"x"` in ignore mode; the second run returns the archived state
unchanged. -/
theorem checker_two_pass_resume_witness :
    checkerRun (fun _ => true) 3
        { globals := [], locals := [], scopes := [(1, (1, [("x", 2)]))],
          stack := [], passRun := true }
        (CNode.mk 1 true none [CNode.mk 2 false (some ("x", true)) []]) =
      .ok { globals := [], locals := [],
            scopes := [(1, (1, [("x", 2)]))], stack := [],
            passRun := true } := by
  have h := checker_two_pass_resume (fun _ => true) 3
    (CNode.mk 1 true none [CNode.mk 2 false (some ("x", true)) []])
    { globals := [], locals := [], scopes := [(1, (1, [("x", 2)]))],
      stack := [], passRun := true }
    rfl rfl (by decide) rfl
  obtain ⟨s2, h2, -, hs2⟩ := h
  rw [hs2] at h2
  exact h2

/-! ## Claim C2: scoped symbol lookup order -/

/-- If none of the frames in a left prefix of the scope stack binds the
name, the stack scan of `scoped_symbol_lookup` answers from the first
(leftmost, i.e. outermost) frame that does. -/
theorem findStack_append_first {name : String} {v : Nat}
    (l1 : List (Nat × SymTable)) {pr : Nat} {fr : SymTable}
    (l2 : List (Nat × SymTable))
    (h1 : ∀ q ∈ l1, lookupA q.2 name = none)
    (hfr : lookupA fr name = some v) :
    findStack (l1 ++ (pr, fr) :: l2) name = some v := by
  induction l1 with
  | nil => simp [findStack, hfr]
  | cons q rest ih =>
      have hq : lookupA q.2 name = none := h1 q (by simp)
      simp only [List.cons_append, findStack, hq]
      exact ih (fun p hp => h1 p (by simp [hp]))

/-- Checker state reached by: collect `"x"` globally, then in each of
three nested scopes collect `"x"` locally in the two outer ones.  Used
to compare the source's lookup order with the claimed order. -/
def c2state : ChkState :=
  enter_scope
    ((collect_symbol (fun _ => true)
        (enter_scope
          ((collect_symbol (fun _ => true)
              (enter_scope
                ((collect_symbol (fun _ => true) initChkState
                    "x" 100 false false).1)
                1)
              "x" 101 false false).1)
          2)
        "x" 102 false false).1)
    3

/-- Claim C2, counterexample.  From a fresh checker: collect `"x" -> 100`
at global level, enter scope 1, collect `"x" -> 101`, enter scope 2,
collect `"x" -> 102`, enter scope 3, and look `"x"` up.  The claimed
most-recent-first order over the enclosing frames would answer with the
innermost enclosing binding 102; `scoped_symbol_lookup` scans the scope
stack oldest-first and answers with the outermost binding 101. -/
theorem scoped_symbol_lookup_order_cex :
    scoped_symbol_lookup c2state "x" = some 101 ∧
    scoped_symbol_lookup_claimed c2state "x" = some 102 ∧
    (101 : Nat) ≠ 102 := by
  refine ⟨rfl, rfl, by decide⟩

/-- Claim C2 (amended): `scoped_symbol_lookup` searches the innermost
(current) locals first, then the enclosing open frames in push order,
i.e. outermost first, then the global table, first match wins.  The
shadowing scenario of the claim is unaffected: collecting `"x"` at
global scope, then collecting `"x"` again inside an open nested scope
succeeds without error, and lookup from inside the nested scope returns
the local declaration, not the global one. -/
theorem scoped_symbol_lookup_order (vi : String → Bool) (name : String)
    (gid lid loc : Nat) (hvi : vi name = true)
    (s : ChkState) (v : Nat) (l1 l2 : List (Nat × SymTable))
    (pr : Nat) (fr : SymTable)
    (hstk : s.stack = l1 ++ (pr, fr) :: l2)
    (hloc : lookupA s.locals name = none)
    (houter : ∀ q ∈ l1, lookupA q.2 name = none)
    (hfr : lookupA fr name = some v) :
    -- general law: first match, scanning outward frames outermost-first
    scoped_symbol_lookup s name = some v ∧
    -- the claim's shadowing scenario
    ((collect_symbol vi initChkState name gid false false).2 = none ∧
      (collect_symbol vi
          (enter_scope (collect_symbol vi initChkState name gid false false).1
            loc)
          name lid false false).2 = none ∧
      scoped_symbol_lookup
          (collect_symbol vi
              (enter_scope
                (collect_symbol vi initChkState name gid false false).1 loc)
              name lid false false).1
          name = some lid) := by
  constructor
  · unfold scoped_symbol_lookup
    rw [hloc, hstk, findStack_append_first l1 l2 houter hfr]
  · constructor
    · simp [collect_symbol, initChkState, hvi, memA, lookupA]
    · constructor
      · simp [collect_symbol, initChkState, hvi, memA, lookupA, enter_scope]
      · simp [collect_symbol, initChkState, hvi, memA, lookupA, enter_scope,
          scoped_symbol_lookup]

/-- Witness for `scoped_symbol_lookup_order` at concrete inputs. -/
theorem scoped_symbol_lookup_order_witness :
    scoped_symbol_lookup
        { initChkState with
          locals := [], stack := [(7, [("y", 5)])], globals := [] }
        "y" = some 5 ∧
    scoped_symbol_lookup
        (collect_symbol (fun _ => true)
            (enter_scope
              (collect_symbol (fun _ => true) initChkState "y" 1 false
                  false).1
              7)
            "y" 2 false false).1
        "y" = some 2 := by
  have h := scoped_symbol_lookup_order (fun _ => true) "y" 1 2 7 rfl
    { initChkState with
      locals := [], stack := [(7, [("y", 5)])], globals := [] }
    5 [] [] 7 [("y", 5)] rfl rfl (by intro q hq; cases hq) rfl
  exact ⟨h.1, h.2.2.2⟩

/-! ## Claim C4: redefinition at the same scope level -/

/-- Claim C4: collecting the same name twice at the same scope level with
the default (non-ignoring) mode succeeds on the first call, fails on the
second with the error code matching the level, and leaves the matching
table still holding the first binding (the raise precedes any mutation,
so the state at the failing call is unchanged). -/
theorem collect_symbol_redefinition (vi : String → Bool) (name : String)
    (n1 n2 : Nat) (sG sL : ChkState) (hvi : vi name = true)
    (hgstack : sG.stack = [])
    (hgfresh : lookupA sG.globals name = none)
    (hlstack : sL.stack ≠ [])
    (hlfresh : lookupA sL.locals name = none) :
    -- global level
    ((collect_symbol vi sG name n1 false false).2 = none ∧
      lookupA (collect_symbol vi sG name n1 false false).1.globals name =
        some n1 ∧
      (collect_symbol vi (collect_symbol vi sG name n1 false false).1 name
          n2 false false).2 = some (.globalRedefined name) ∧
      (collect_symbol vi (collect_symbol vi sG name n1 false false).1 name
          n2 false false).1 =
        (collect_symbol vi sG name n1 false false).1 ∧
      lookupA
          (collect_symbol vi (collect_symbol vi sG name n1 false false).1
              name n2 false false).1.globals name = some n1) ∧
    -- local level
    ((collect_symbol vi sL name n1 false false).2 = none ∧
      lookupA (collect_symbol vi sL name n1 false false).1.locals name =
        some n1 ∧
      (collect_symbol vi (collect_symbol vi sL name n1 false false).1 name
          n2 false false).2 = some (.localRedefined name) ∧
      (collect_symbol vi (collect_symbol vi sL name n1 false false).1 name
          n2 false false).1 =
        (collect_symbol vi sL name n1 false false).1 ∧
      lookupA
          (collect_symbol vi (collect_symbol vi sL name n1 false false).1
              name n2 false false).1.locals name = some n1) := by
  have hg1 : lookupA (sG.globals ++ [(name, n1)]) name = some n1 :=
    lookupA_append_fresh hgfresh n1
  have hl1 : lookupA (sL.locals ++ [(name, n1)]) name = some n1 :=
    lookupA_append_fresh hlfresh n1
  have hlen : sL.stack.length ≠ 0 := by
    intro h; exact hlstack (List.length_eq_zero.mp h)
  constructor
  · simp [collect_symbol, hvi, hgstack, memA, hgfresh, hg1]
  · simp [collect_symbol, hvi, hlen, memA, hlfresh, hl1]

/-! ## AST nodes (`ScoffASTObject`, `scoff/ast/__init__.py`)

A node carries its identity, class name, the `_root` and `_initialized`
flags, the `_parent` back-reference (stored as the parent's identity),
`_parent_key`, and the visitable slots in declaration order
(`_visitable_children_names`); non-visitable attributes and the textx
metadata bag are opaque to every modelled operation and are omitted.  A
visitable slot holds a single child node, an ordered sequence of child
nodes, a scalar string leaf, or Python `None`.  (Sequence slots of
non-`ScoffASTObject` elements are not modelled: the visitor's declared
`VisitReturnType` and every modelled run use node sequences only.) -/

mutual

inductive SNode : Type where
  | mk : Nat → String → Bool → Bool → Option Nat → Option String →
      List (String × SVal) → SNode

inductive SVal : Type where
  | child : SNode → SVal
  | seq : List SNode → SVal
  | scalar : String → SVal
  | nil : SVal

end

def SNode.nid : SNode → Nat
  | .mk i _ _ _ _ _ _ => i

def SNode.cls : SNode → String
  | .mk _ c _ _ _ _ _ => c

def SNode.root : SNode → Bool
  | .mk _ _ r _ _ _ _ => r

def SNode.initialized : SNode → Bool
  | .mk _ _ _ i _ _ _ => i

def SNode.parentRef : SNode → Option Nat
  | .mk _ _ _ _ p _ _ => p

def SNode.parentKey : SNode → Option String
  | .mk _ _ _ _ _ k _ => k

def SNode.slots : SNode → List (String × SVal)
  | .mk _ _ _ _ _ _ s => s

def SNode.withParentRef : SNode → Option Nat → SNode
  | .mk i c r z _ k s, p => .mk i c r z p k s

def SNode.withParentKey : SNode → Option String → SNode
  | .mk i c r z p _ s, k => .mk i c r z p k s

def SNode.withSlots : SNode → List (String × SVal) → SNode
  | .mk i c r z p k _, s => .mk i c r z p k s

/-- The `parent` property setter: ignored silently once an initialized
root node (`_initialized and _root`), otherwise stores the reference. -/
def parentSetter (n : SNode) (v : Option Nat) : SNode :=
  if n.initialized && n.root then n else n.withParentRef v

/-- The visitor's re-parenting step `value.parent = node;
value._parent_key = attr_name`: the parent reference goes through the
property setter (so roots are left alone), the `_parent_key` slot write
bypasses it and always lands. -/
def reparent (c : SNode) (pnid : Nat) (key : String) : SNode :=
  (parentSetter c (some pnid)).withParentKey (some key)

/-- Re-parent the nodes inside a value being assigned to a slot
(`ScoffASTObject.__setattr__` does this for a node value and for each
node element of a sequence value). -/
def reparentVal (v : SVal) (pnid : Nat) (key : String) : SVal :=
  match v with
  | .child c => .child (reparent c pnid key)
  | .seq xs => .seq (xs.map (fun c => reparent c pnid key))
  | x => x

/-- Child nodes held by a slot value (used to observe the previously
held value across an assignment). -/
def oldNodes : Option SVal → List SNode
  | some (.child c) => [c]
  | some (.seq xs) => xs
  | _ => []

/-- `ScoffASTObject.__setattr__` for a slot assignment on an initialized
node: re-parents the incoming value and writes the slot.  The source's
block "remove reference from old object" is disabled (its body is
`pass`), so the previously held child nodes are returned exactly as they
were — their parent links are NOT detached.  Slot type checking
(`_check_slot_type`) is vacuous here: the modelled kinds declare no slot
types or annotations. -/
def scoffSetattr (n : SNode) (name : String) (v : SVal) :
    SNode × List SNode :=
  if n.initialized && (lookupA n.slots name).isSome then
    (n.withSlots (updateA n.slots name (reparentVal v n.nid name)),
      oldNodes (lookupA n.slots name))
  else
    (n.withSlots (updateA n.slots name v), [])

/-- A raw slot content update with no re-parenting and no old-value
bookkeeping: models the case where the child object itself was mutated
in place during its own visit (same identity, new content), which the
engine does not write back through `__setattr__`. -/
def setSlotRaw (n : SNode) (name : String) (v : SVal) : SNode :=
  n.withSlots (updateA n.slots name v)

/-- `ScoffASTObject.__init__(root_node, **kwargs)`: the new node starts
with `_parent = None`, `_parent_key = None`, re-parents each single-node
keyword value to itself (list elements are not re-parented during
`__init__`: `_initialized` is still false, so `__setattr__` skips its
re-parenting block), and finishes initialized. -/
def initNode (rootNode : Bool) (nid : Nat) (cls : String)
    (slots : List (String × SVal)) : SNode :=
  SNode.mk nid cls rootNode true none none
    (slots.map (fun p =>
      (p.1, match p.2 with
            | .child c => .child (reparent c nid p.1)
            | v => v)))

/-! ## Python exceptions -/

/-- The exception values the modelled code raises and wraps.
`visitError ex` is `VisitError(original_exception)`; `visitErrorMsg` is
the `VisitError("...")` the exclusive visitor raises with a message
string in place of an embedded exception; `syntaxError` is
`SyntaxCheckerError(message, code)`. -/
inductive PyExc : Type where
  | visitError : Option PyExc → PyExc
  | visitErrorMsg : String → PyExc
  | syntaxError : String → Nat → PyExc
  | runtimeError : String → PyExc
  | other : String → PyExc

/-- Whether an exception value is a `VisitError` instance. -/
def PyExc.isVisitErr : PyExc → Bool
  | .visitError _ => true
  | .visitErrorMsg _ => true
  | _ => false

/-- `VisitError.find_embedded_exception`, as a function of the wrapper's
`ex` field: recurse through nested `VisitError`s, answer a fresh
`RuntimeError` when the chain ends in `None`, else the innermost
non-traversal cause. -/
def find_embedded : Option PyExc → PyExc
  | some (.visitError inner) => find_embedded inner
  | none => .runtimeError "unknown error in visit"
  | some e => e

/-- `k`-fold `VisitError` wrapping of an exception. -/
def wrapK : Nat → PyExc → PyExc
  | 0, e => e
  | k + 1, e => .visitError (some (wrapK k e))

/-- The `try/except VisitError` of `SyntaxChecker.visit`: when the
wrapped cause is a `SyntaxCheckerError`, re-raise the cause itself;
otherwise re-raise the wrapper; non-error outcomes pass through. -/
def checkerVisitEx {α : Type} : Except PyExc α → Except PyExc α
  | .error (.visitError (some (.syntaxError m c))) =>
      .error (.syntaxError m c)
  | r => r

/-! ## Visitor state and dispatch (`ASTVisitor`) -/

/-- The run state of an `ASTVisitor`: `_dont_visit` (pause), the flags
the engine itself reads (`no_children_visits`, `reverse_visit`,
`minimal_depth`, `ignore_visited` — the flag dict is keyed by these
names; other entries are never consulted by the engine), the visited
identity set, and `_visiting`.  `severed` is an observation log of the
nodes whose parent link the engine explicitly cleared while deleting
sequence elements (in the source those objects simply outlive the tree;
the log records them in their final state).  History is left out: the
default `history_len` is 0, under which `_store_visit` does nothing, and
no modelled run configures it.  Hooks are left out: no modelled run
registers any. -/
structure VisState where
  dontVisit : Bool
  ncv : Bool
  reverseVisit : Bool
  minimalDepth : Bool
  ignoreVisited : Bool
  visited : List Nat
  visiting : Bool
  severed : List SNode

/-- Fresh visitor state (all flags cleared). -/
def initVisState : VisState :=
  { dontVisit := false, ncv := false, reverseVisit := false,
    minimalDepth := false, ignoreVisited := false, visited := [],
    visiting := false, severed := [] }

/-- The dispatch tables built by `visit` from the `visitPre_`/`visit_`
methods, keyed by class name, plus the overridable
`_check_visit_allowed` predicate.  Callbacks are modelled as pure
functions of the visited node that may raise; a post-visit callback
returns a value of the source's declared `VisitReturnType`
(`None | node | list of nodes`), plus a scalar alternative so the
identity comparison below is total.  Callbacks for builtin classes
(`str`, `NoneType`, `list`) and catch-all `Default` callbacks are not
modelled: no modelled run registers them, so scalar leaves take the
default path and are returned unchanged. -/
structure VisCfg where
  preTable : List (String × (SNode → Except PyExc Unit))
  postTable : List (String × (SNode → Except PyExc SVal))
  checkVisitAllowed : String → Bool

/-- The identity comparison `ret != to_visit` (negated): node identity
is id equality, strings compare by value, `None is None`. -/
def retIsSame : SVal → SVal → Bool
  | .child c, .child m => c.nid == m.nid
  | .scalar a, .scalar b => a == b
  | .nil, .nil => true
  | _, _ => false

/-- `ASTVisitor._visit_fn_pre`: dispatch the pre-visit callback if the
class has one (no catch-all modelled, so otherwise no-op); under
`ignore_visited` a visited node short-circuits; under `minimal_depth` a
kind that also has its own post callback forces the skip-children flag
before the callback runs.  The engine discards the callback's return
value. -/
def visitFnPre (cfg : VisCfg) (st : VisState) (n : SNode) :
    Except PyExc VisState :=
  match lookupA cfg.preTable n.cls with
  | none => .ok st
  | some f =>
      if st.ignoreVisited && st.visited.contains n.nid then .ok st
      else
        let st1 := if st.minimalDepth &&
            (lookupA cfg.postTable n.cls).isSome then
          { st with ncv := true } else st
        match f n with
        | .ok _ => .ok st1
        | .error e => .error e

/-- `ASTVisitor._visit_fn_post`: dispatch the post-visit callback if the
class has one, else return the node unchanged (the default); under
`ignore_visited` a visited node is returned unchanged without invoking
the callback, and an unvisited one is recorded before the call. -/
def visitFnPost (cfg : VisCfg) (st : VisState) (n : SNode) :
    Except PyExc (VisState × SVal) :=
  match lookupA cfg.postTable n.cls with
  | none => .ok (st, .child n)
  | some f =>
      if st.ignoreVisited then
        if st.visited.contains n.nid then .ok (st, .child n)
        else
          match f n with
          | .ok r => .ok ({ st with visited := n.nid :: st.visited }, r)
          | .error e => .error e
      else
        match f n with
        | .ok r => .ok (st, r)
        | .error e => .error e

end Scoff

namespace Scoff

/-- One visit step as a function value (the recursive call at the next
depth, threaded through the list helpers below). -/
abbrev RecFn : Type :=
  VisState → SNode → Except PyExc (VisState × SVal)

/-- `_visit` applied to a slot value.  Child nodes recurse; a scalar,
`None`, or list value has no child-slot protocol: the flag check still
consumes `no_children_visits`, the reflection step raises
`AttributeError`, which `_visit` swallows as the normal leaf condition,
and the default post-visit returns the value unchanged. -/
def visitValWith (rec : RecFn) (st : VisState) :
    SVal → Except PyExc (VisState × SVal)
  | .child c => rec st c
  | .scalar s => .ok ({ st with ncv := false }, .scalar s)
  | .nil => .ok ({ st with ncv := false }, .nil)
  | .seq xs => .ok ({ st with ncv := false }, .seq xs)

/-- First loop of the sequence-slot branch of `_visit`: visit each
element in order (`_visit_and_modify(statement)`), writing back elements
kept with unchanged identity (the object may have been mutated in
place), collecting `modified_statements` (index ascending, as dict
insertion order) and `to_delete`. -/
def elemVisits (rec : RecFn) :
    VisState → List SNode → Nat →
    Except PyExc (VisState × List SNode × List (Nat × SVal) × List Nat)
  | st, [], _ => .ok (st, [], [], [])
  | st, x :: rest, idx =>
      match rec st x with
      | .error e => .error e
      | .ok (st1, ret) =>
          if retIsSame (.child x) ret then
            let m := match ret with
                     | .child m => m
                     | _ => x
            match elemVisits rec st1 rest (idx + 1) with
            | .error e => .error e
            | .ok (st2, xs2, mods, dels) => .ok (st2, m :: xs2, mods, dels)
          else
            match ret with
            | .nil =>
                match elemVisits rec st1 rest (idx + 1) with
                | .error e => .error e
                | .ok (st2, xs2, mods, dels) =>
                    .ok (st2, x :: xs2, mods, idx :: dels)
            | r =>
                match elemVisits rec st1 rest (idx + 1) with
                | .error e => .error e
                | .ok (st2, xs2, mods, dels) =>
                    .ok (st2, x :: xs2, (idx, r) :: mods, dels)

/-- Second loop: apply the splices, tracking the running
`insertion_offset` (an `Int`: a replacement by the empty list makes it
negative; the resulting position index is nonnegative in every reachable
state because the recorded indices are strictly ascending).  Every
spliced-in node is re-parented to the owning node under the slot's
name. -/
def spliceAll (pnid : Nat) (attrName : String) :
    Int → List (Nat × SVal) → List SNode → List SNode
  | _, [], xs => xs
  | off, (idx, r) :: rest, xs =>
      let toInsert : List SNode :=
        match r with
        | .child m => [m]
        | .seq ms => ms
        | _ => []
      let toInsert := toInsert.map (fun m => reparent m pnid attrName)
      let pos := (Int.ofNat idx + off).toNat
      let xs2 := xs.take pos ++ toInsert ++ xs.drop (pos + 1)
      spliceAll pnid attrName (off + Int.ofNat toInsert.length - 1) rest xs2

/-- Third loop: apply the deletions, tracking the running
`deletion_offset`; the element's parent link is severed through the
property setter before the element is removed; an out-of-range index is
swallowed (`except: pass`).  Also returns the removed elements in their
final (severed) state. -/
def deleteAll : Int → List Nat → List SNode → List SNode × List SNode
  | _, [], xs => (xs, [])
  | doff, idx :: rest, xs =>
      let j := Int.ofNat idx + doff
      if h : 0 ≤ j ∧ j.toNat < xs.length then
        let elem := xs.get ⟨j.toNat, h.2⟩
        let res := deleteAll (doff - 1) rest (xs.eraseIdx j.toNat)
        (res.1, parentSetter elem none :: res.2)
      else
        deleteAll doff rest xs

/-- The children loop of `_visit`: iterate the slot names in order,
skipping names the `_check_visit_allowed` predicate rejects; a missing
attribute raises `AttributeError`, silently ending the children phase.
A sequence slot runs the three loops above and is written back through
`__setattr__` (which re-parents every element); a single-value slot is
`_visit_and_modify(node, attr_name)`: on unchanged identity the
(possibly in-place-mutated) child is kept, otherwise the returned value
— or `None` on Delete — is assigned through `__setattr__`. -/
def visitSlotsGo (rec : RecFn) (cfg : VisCfg) :
    VisState → SNode → List String → Except PyExc (VisState × SNode)
  | st, n, [] => .ok (st, n)
  | st, n, name :: rest =>
      if cfg.checkVisitAllowed name = false then
        visitSlotsGo rec cfg st n rest
      else
        match lookupA n.slots name with
        | none => .ok (st, n)
        | some (.seq xs) =>
            match elemVisits rec st xs 0 with
            | .error e => .error e
            | .ok (st1, xs1, mods, dels) =>
                let xs2 := spliceAll n.nid name 0 mods xs1
                let res := deleteAll 0 dels xs2
                let st2 := { st1 with severed := st1.severed ++ res.2 }
                visitSlotsGo rec cfg st2
                  (scoffSetattr n name (.seq res.1)).1 rest
        | some v0 =>
            match visitValWith rec st v0 with
            | .error e => .error e
            | .ok (st1, ret) =>
                if retIsSame v0 ret then
                  match v0, ret with
                  | .child _, .child m =>
                      visitSlotsGo rec cfg st1 (setSlotRaw n name (.child m))
                        rest
                  | _, _ => visitSlotsGo rec cfg st1 n rest
                else
                  visitSlotsGo rec cfg st1 (scoffSetattr n name ret).1 rest

/-- `ASTVisitor._visit`, on a fuel bound on the visit depth (the source
recursion is bounded by the tree depth; every theorem below uses runs
deep enough for their tree).  Pre-visit (skipped while paused; a raise
is wrapped as `VisitError`), then the children phase (skipped when the
skip-children flag is up, which consumes the flag; the slot-name list is
reversed, once, when `reverse_visit` is up), then post-visit (skipped
while paused, returning the node; a raise is wrapped as `VisitError`). -/
def visitNodeF (cfg : VisCfg) : Nat → VisState → SNode →
    Except PyExc (VisState × SVal)
  | 0, _, _ => .error (.other "recursion fuel exhausted")
  | fuel + 1, st, n =>
      match (if st.dontVisit then (.ok st : Except PyExc VisState)
             else
               match visitFnPre cfg st n with
               | .ok st1 => .ok st1
               | .error e => .error (PyExc.visitError (some e))) with
      | .error e => .error e
      | .ok st1 =>
          match (if st1.ncv then
                   (.ok ({ st1 with ncv := false }, n) :
                     Except PyExc (VisState × SNode))
                 else if st1.reverseVisit then
                   visitSlotsGo (visitNodeF cfg fuel) cfg
                     { st1 with reverseVisit := false } n
                     (n.slots.map Prod.fst).reverse
                 else
                   visitSlotsGo (visitNodeF cfg fuel) cfg st1 n
                     (n.slots.map Prod.fst)) with
          | .error e => .error e
          | .ok (st3, n3) =>
              if st3.dontVisit then .ok (st3, .child n3)
              else
                match visitFnPost cfg st3 n3 with
                | .ok (st4, r) => .ok (st4, r)
                | .error e => .error (PyExc.visitError (some e))

/-- `ASTVisitor.visit` with the default `cleanup=True`: set `_visiting`,
run `_visit`, clear `_visiting` and reset the visited set.  When
`_visit` raises, `_visiting` stays set (the source assigns `False` only
after a normal return). -/
def visitRootF (cfg : VisCfg) (fuel : Nat) (st : VisState) (n : SNode) :
    Except PyExc (VisState × SVal) :=
  match visitNodeF cfg fuel { st with visiting := true } n with
  | .ok (st1, r) => .ok ({ st1 with visiting := false, visited := [] }, r)
  | .error e => .error e

/-! ## Exclusive visitor configuration guard (`ExclusiveASTVisitor`) -/

/-- The configuration state of an `ExclusiveASTVisitor`: the inherited
`_visiting` flag and the two prefix-pattern sets. -/
structure ExclVisitor where
  visiting : Bool
  notAllowed : List String
  allowedVisits : List String
deriving Repr, DecidableEq

/-- Python set union `base |= set(ps)`, on a duplicate-free list. -/
def addToSet (base : List String) (ps : List String) : List String :=
  ps.foldl (fun acc p => if p ∈ acc then acc else acc ++ [p]) base

theorem mem_addToSet_of_base :
    ∀ {ps base : List String} {p : String}, p ∈ base →
      p ∈ addToSet base ps := by
  intro ps
  induction ps with
  | nil => intro base p hp; exact hp
  | cons q rest ih =>
      intro base p hp
      show p ∈ addToSet (if q ∈ base then base else base ++ [q]) rest
      by_cases hq : q ∈ base
      · rw [if_pos hq]; exact ih hp
      · rw [if_neg hq]; exact ih (by simp [hp])

theorem mem_addToSet_of_mem :
    ∀ {ps base : List String} {p : String}, p ∈ ps →
      p ∈ addToSet base ps := by
  intro ps
  induction ps with
  | nil => intro base p hp; cases hp
  | cons q rest ih =>
      intro base p hp
      show p ∈ addToSet (if q ∈ base then base else base ++ [q]) rest
      rcases List.mem_cons.mp hp with hp | hp
      · subst hp
        apply mem_addToSet_of_base
        by_cases hq : p ∈ base
        · rw [if_pos hq]; exact hq
        · rw [if_neg hq]; simp
      · exact ih hp

/-- `ExclusiveASTVisitor.add_disallowed_prefixes`: refused with a
`VisitError` while a traversal is in progress (the raise precedes any
mutation, so the state alongside the error is the input state). -/
def add_disallowed_prefixes (v : ExclVisitor) (ps : List String) :
    ExclVisitor × Option PyExc :=
  if v.visiting then
    (v, some (.visitErrorMsg
      "cannot alter disallowed prefixes while visiting"))
  else
    ({ v with notAllowed := addToSet v.notAllowed ps }, none)

/-- `ExclusiveASTVisitor.add_allowed_prefixes`: same guard for the
allow set. -/
def add_allowed_prefixes (v : ExclVisitor) (ps : List String) :
    ExclVisitor × Option PyExc :=
  if v.visiting then
    (v, some (.visitErrorMsg
      "cannot alter allowed prefixes while visiting"))
  else
    ({ v with allowedVisits := addToSet v.allowedVisits ps }, none)

/-! ## Claim C1: splice law -/

/-- Claim C1: for a node `N` with a visitable sequence slot `s` holding
`[N1, N2]` and a visitor whose post-visit callback returns the list
`[X, Y]` (ReplaceMany) for `N1` and keeps every other node, `visit(N)`
leaves the slot equal to `[X, Y, N2]`, with `X` and `Y` re-parented to
`N` and `parent_key` set to the slot name `s`.  `X` and `Y` are
arbitrary non-root nodes (their previous parent link and key, class and
slots are arbitrary and survive except for the re-parenting). -/
theorem visitor_splice_law (nN n1 n2 nx ny : Nat)
    (cls clsX clsY s : String) (pN : Option Nat) (kN : Option String)
    (px py : Option Nat) (kx ky : Option String)
    (sx sy : List (String × SVal))
    (hA : nN ≠ n1) (hB : n2 ≠ n1) :
    visitRootF
      { preTable := [],
        postTable := [(cls, fun m =>
          if m.nid = n1 then
            .ok (.seq [SNode.mk nx clsX false true px kx sx,
                       SNode.mk ny clsY false true py ky sy])
          else .ok (.child m))],
        checkVisitAllowed := fun _ => true }
      3 initVisState
      (SNode.mk nN cls false true pN kN
        [(s, .seq [SNode.mk n1 cls false true (some nN) (some s) [],
                   SNode.mk n2 cls false true (some nN) (some s) []])]) =
    .ok (initVisState, .child (SNode.mk nN cls false true pN kN
      [(s, .seq [SNode.mk nx clsX false true (some nN) (some s) sx,
                 SNode.mk ny clsY false true (some nN) (some s) sy,
                 SNode.mk n2 cls false true (some nN) (some s) []])])) := by
  simp [visitRootF, visitNodeF, visitSlotsGo, elemVisits, visitValWith,
    visitFnPre, visitFnPost, spliceAll, deleteAll, scoffSetattr, setSlotRaw,
    reparent, reparentVal, parentSetter, retIsSame, lookupA, updateA,
    oldNodes, initVisState, SNode.nid, SNode.cls, SNode.slots,
    SNode.initialized, SNode.root, SNode.withParentRef, SNode.withParentKey,
    SNode.withSlots, hA, hB]

/-- Witness for `visitor_splice_law` at concrete inputs. -/
theorem visitor_splice_law_witness :
    visitRootF
      { preTable := [],
        postTable := [("A", fun m =>
          if m.nid = 1 then
            .ok (.seq [SNode.mk 3 "A" false true none none [],
                       SNode.mk 4 "A" false true none none []])
          else .ok (.child m))],
        checkVisitAllowed := fun _ => true }
      3 initVisState
      (SNode.mk 10 "A" false true none none
        [("s", .seq [SNode.mk 1 "A" false true (some 10) (some "s") [],
                     SNode.mk 2 "A" false true (some 10) (some "s") []])]) =
    .ok (initVisState, .child (SNode.mk 10 "A" false true none none
      [("s", .seq [SNode.mk 3 "A" false true (some 10) (some "s") [],
                   SNode.mk 4 "A" false true (some 10) (some "s") [],
                   SNode.mk 2 "A" false true (some 10) (some "s") []])])) :=
  visitor_splice_law 10 1 2 3 4 "A" "A" "A" "s" none none none none
    none none [] [] (by decide) (by decide)

/-! ## Claim C6: delete law -/

/-- Claim C6: for a node `N` with a visitable sequence slot `s` holding
`[N1, N2, N3]` and a visitor whose post-visit callback returns Delete
(`None`) for `N2` and keeps every other node, `visit(N)` leaves the slot
equal to `[N1, N3]`, and `N2`'s parent reference is cleared (the
engine's deletion loop assigns `parent = None` before removing the
element; the severed log records the removed object's final state). -/
theorem visitor_delete_law (nN n1 n2 n3 : Nat) (cls s : String)
    (pN : Option Nat) (kN : Option String)
    (p2 : Option Nat) (k2 : Option String)
    (hA : nN ≠ n2) (hB : n1 ≠ n2) (hC : n3 ≠ n2) :
    visitRootF
      { preTable := [],
        postTable := [(cls, fun m =>
          if m.nid = n2 then .ok .nil else .ok (.child m))],
        checkVisitAllowed := fun _ => true }
      3 initVisState
      (SNode.mk nN cls false true pN kN
        [(s, .seq [SNode.mk n1 cls false true (some nN) (some s) [],
                   SNode.mk n2 cls false true p2 k2 [],
                   SNode.mk n3 cls false true (some nN) (some s) []])]) =
    .ok ({ initVisState with
           severed := [SNode.mk n2 cls false true none k2 []] },
      .child (SNode.mk nN cls false true pN kN
        [(s, .seq [SNode.mk n1 cls false true (some nN) (some s) [],
                   SNode.mk n3 cls false true (some nN) (some s) []])])) ∧
    (SNode.mk n2 cls false true none k2 []).parentRef = none := by
  constructor
  · simp [visitRootF, visitNodeF, visitSlotsGo, elemVisits, visitValWith,
      visitFnPre, visitFnPost, spliceAll, deleteAll, scoffSetattr,
      setSlotRaw, reparent, reparentVal, parentSetter, retIsSame, lookupA,
      updateA, oldNodes, initVisState, SNode.nid, SNode.cls, SNode.slots,
      SNode.initialized, SNode.root, SNode.withParentRef,
      SNode.withParentKey, SNode.withSlots, List.eraseIdx, hA, hB, hC]
  · rfl

/-- Witness for `visitor_delete_law` at concrete inputs. -/
theorem visitor_delete_law_witness :
    visitRootF
      { preTable := [],
        postTable := [("A", fun m =>
          if m.nid = 2 then .ok .nil else .ok (.child m))],
        checkVisitAllowed := fun _ => true }
      3 initVisState
      (SNode.mk 10 "A" false true none none
        [("s", .seq [SNode.mk 1 "A" false true (some 10) (some "s") [],
                     SNode.mk 2 "A" false true (some 10) (some "s") [],
                     SNode.mk 3 "A" false true (some 10) (some "s") []])]) =
    .ok ({ initVisState with
           severed := [SNode.mk 2 "A" false true none (some "s") []] },
      .child (SNode.mk 10 "A" false true none none
        [("s", .seq [SNode.mk 1 "A" false true (some 10) (some "s") [],
                     SNode.mk 3 "A" false true (some 10) (some "s") []])]))
    :=
  (visitor_delete_law 10 1 2 3 "A" "s" none none (some 10) (some "s")
    (by decide) (by decide) (by decide)).1

/-! ## Claim C7: old value of a slot assignment -/

/-- Claim C7, counterexample.  An initialized node `P` whose visitable
slot `"a"` holds the child `C` (with `C.parent = P`): assigning `None`
to the slot — exactly what `_visit_and_modify` does when a callback
yields Delete for the single child — replaces the slot but does NOT
detach `C`'s parent link: the block of `__setattr__` that would clear
the old value's parent is disabled (`pass`) in the source, so `C` still
records `P` as its parent afterwards.  The run through the visitor shows
the same: the slot is cleared, and the visitor state is unchanged — in
particular its severed log stays empty, so no parent-clearing operation
ran. -/
theorem scalar_slot_detach_cex :
    (scoffSetattr
        (SNode.mk 1 "P" false true none none
          [("a", .child (SNode.mk 2 "C" false true (some 1) (some "a")
            []))])
        "a" SVal.nil).2 =
      [SNode.mk 2 "C" false true (some 1) (some "a") []] ∧
    (SNode.mk 2 "C" false true (some 1) (some "a") []).parentRef =
      some 1 ∧
    some 1 ≠ (none : Option Nat) ∧
    visitRootF
      { preTable := [],
        postTable := [("C", fun _ => .ok .nil)],
        checkVisitAllowed := fun _ => true }
      3 initVisState
      (SNode.mk 1 "P" false true none none
        [("a", .child (SNode.mk 2 "C" false true (some 1) (some "a")
          []))]) =
    .ok (initVisState,
      .child (SNode.mk 1 "P" false true none none [("a", SVal.nil)])) :=
  ⟨rfl, rfl, by decide, rfl⟩

/-- Claim C7 (amended): setting a visitable slot of an initialized node
re-parents the incoming value and replaces the slot, but does NOT detach
the old value's parent link: the previously held child comes out of the
assignment exactly as it was held, still recording the assigning node as
its parent if it did before (the detach block in `__setattr__` is
disabled in the source; only the visitor's sequence-deletion path clears
parent links, see the delete law). -/
theorem scalar_slot_set_no_detach (n : SNode) (name : String) (c : SNode)
    (v : SVal) (hinit : n.initialized = true)
    (hslot : lookupA n.slots name = some (.child c)) :
    (scoffSetattr n name v).2 = [c] ∧
    (scoffSetattr n name v).1 =
      n.withSlots (updateA n.slots name (reparentVal v n.nid name)) := by
  simp [scoffSetattr, hinit, hslot, oldNodes]

/-- Witness for `scalar_slot_set_no_detach` at concrete inputs. -/
theorem scalar_slot_set_no_detach_witness :
    (scoffSetattr
        (SNode.mk 7 "P" false true none none
          [("a", .child (SNode.mk 8 "C" false true (some 7) (some "a")
            []))])
        "a" SVal.nil).2 =
      [SNode.mk 8 "C" false true (some 7) (some "a") []] :=
  (scalar_slot_set_no_detach
    (SNode.mk 7 "P" false true none none
      [("a", .child (SNode.mk 8 "C" false true (some 7) (some "a") []))])
    "a" (SNode.mk 8 "C" false true (some 7) (some "a") []) SVal.nil
    rfl rfl).1

/-! ## Claim C8: minimal-depth pruning -/

/-- Claim C8, counterexample.  With the minimal-depth flag set, a node
kind (`"A"`) that has its own explicit post-visit callback but no
explicit pre-visit callback: the engine only forces the skip-children
flag inside the branch of `_visit_fn_pre` taken when the kind has its
own pre-visit entry, so the children of this `A` node ARE descended
into — the `B` child's Delete callback runs and clears the slot, where
the claim requires the slot to still hold the child. -/
theorem minimal_depth_post_only_cex :
    visitRootF
      { preTable := [],
        postTable := [("A", fun m => .ok (.child m)),
                      ("B", fun _ => .ok .nil)],
        checkVisitAllowed := fun _ => true }
      3 { initVisState with minimalDepth := true }
      (SNode.mk 1 "A" false true none none
        [("b", .child (SNode.mk 2 "B" false true (some 1) (some "b")
          []))]) =
    .ok ({ initVisState with minimalDepth := true },
      .child (SNode.mk 1 "A" false true none none [("b", SVal.nil)])) ∧
    SVal.nil ≠ SVal.child (SNode.mk 2 "B" false true (some 1) (some "b")
      []) :=
  ⟨rfl, by intro h; exact SVal.noConfusion h⟩

/-- Claim C8 (amended): with the minimal-depth flag set, for every node
whose kind has its own explicit PRE-visit callback in addition to its
own explicit post-visit callback, entering that node forces the
skip-children flag for that single call: none of the node's children are
descended into (the post-visit callback receives the node with its slots
untouched) while the post-visit callback still runs, and the flag is
consumed (the final state equals the entry state). -/
theorem minimal_depth_prunes (cfg : VisCfg) (st : VisState) (n : SNode)
    (f : SNode → Except PyExc Unit) (g : SNode → Except PyExc SVal)
    (r : SVal) (fuel : Nat)
    (hpre : lookupA cfg.preTable n.cls = some f)
    (hpost : lookupA cfg.postTable n.cls = some g)
    (hmd : st.minimalDepth = true)
    (hdv : st.dontVisit = false)
    (hiv : st.ignoreVisited = false)
    (hncv : st.ncv = false)
    (hf : f n = .ok ())
    (hg : g n = .ok r) :
    visitNodeF cfg (fuel + 1) st n = .ok (st, r) := by
  obtain ⟨dv, ncv, rv, md, iv, vis, vg, sev⟩ := st
  simp only [VisState.minimalDepth] at hmd
  simp only [VisState.dontVisit] at hdv
  simp only [VisState.ignoreVisited] at hiv
  simp only [VisState.ncv] at hncv
  subst hmd hdv hiv hncv
  simp [visitNodeF, visitFnPre, visitFnPost, hpre, hpost, hf, hg]

/-- Witness for `minimal_depth_prunes` at concrete inputs: the `B` child
would be deleted if descended into, and is untouched. -/
theorem minimal_depth_prunes_witness :
    visitNodeF
      { preTable := [("A", fun _ => .ok ())],
        postTable := [("A", fun m => .ok (.child m)),
                      ("B", fun _ => .ok .nil)],
        checkVisitAllowed := fun _ => true }
      3 { initVisState with minimalDepth := true }
      (SNode.mk 1 "A" false true none none
        [("b", .child (SNode.mk 2 "B" false true (some 1) (some "b")
          []))]) =
    .ok ({ initVisState with minimalDepth := true },
      .child (SNode.mk 1 "A" false true none none
        [("b", .child (SNode.mk 2 "B" false true (some 1) (some "b")
          []))])) :=
  minimal_depth_prunes _ _ _ _ _ _ 2 rfl rfl rfl rfl rfl rfl rfl rfl

/-! ## Claim C5: exception wrapping and unwrapping -/

/-- Claim C5: (i) an exception raised inside a registered pre-visit
callback propagates out of `_visit` wrapped as `VisitError`; (ii) the
same for a post-visit callback raising after a successful children
phase; (iii) `find_embedded_exception` unwraps arbitrarily nested
`VisitError` wrappings to the innermost non-traversal cause, and answers
a `RuntimeError` when the chain ends with no embedded exception;
(iv) the Checker's `visit` re-raises the embedded `SyntaxCheckerError`
itself when the wrapped cause is one, and passes other outcomes
through. -/
theorem visit_error_wrapping :
    (∀ (cfg : VisCfg) (st : VisState) (n : SNode)
       (f : SNode → Except PyExc Unit) (e : PyExc) (fuel : Nat),
      st.dontVisit = false → st.ignoreVisited = false →
      lookupA cfg.preTable n.cls = some f → f n = .error e →
      visitNodeF cfg (fuel + 1) st n = .error (.visitError (some e))) ∧
    (∀ (cfg : VisCfg) (st st1 : VisState) (n n1 : SNode)
       (g : SNode → Except PyExc SVal) (e : PyExc) (fuel : Nat),
      st.dontVisit = false → st.ncv = false → st.reverseVisit = false →
      lookupA cfg.preTable n.cls = none →
      visitSlotsGo (visitNodeF cfg fuel) cfg st n (n.slots.map Prod.fst) =
        .ok (st1, n1) →
      st1.dontVisit = false → st1.ignoreVisited = false →
      lookupA cfg.postTable n1.cls = some g → g n1 = .error e →
      visitNodeF cfg (fuel + 1) st n = .error (.visitError (some e))) ∧
    (∀ (k : Nat) (e : PyExc), e.isVisitErr = false →
      find_embedded (some (wrapK k e)) = e) ∧
    find_embedded none = .runtimeError "unknown error in visit" ∧
    (∀ (m : String) (c : Nat),
      checkerVisitEx (α := VisState × SVal)
          (.error (.visitError (some (.syntaxError m c)))) =
        .error (.syntaxError m c)) ∧
    (∀ (r : VisState × SVal), checkerVisitEx (.ok r) = .ok r) ∧
    (∀ (cfg : VisCfg) (st : VisState) (n : SNode)
       (f : SNode → Except PyExc Unit) (e : PyExc) (fuel : Nat),
      st.dontVisit = false → st.ignoreVisited = false →
      lookupA cfg.preTable n.cls = some f → f n = .error e →
      visitRootF cfg (fuel + 1) st n = .error (.visitError (some e))) := by
  refine ⟨?_, ?_, ?_, by simp [find_embedded], fun m c => rfl,
    fun r => rfl, ?_⟩
  · intro cfg st n f e fuel hdv hiv hpre hf
    simp [visitNodeF, visitFnPre, hpre, hdv, hiv, hf]
  · intro cfg st st1 n n1 g e fuel hdv hncv hrev hpre hslots hdv1 hiv1
      hpost hg
    simp [visitNodeF, visitFnPre, hpre, hdv, hncv, hrev, hslots, hdv1,
      visitFnPost, hpost, hiv1, hg]
  · intro k
    induction k with
    | zero =>
        intro e he
        cases e with
        | visitError a => simp [PyExc.isVisitErr] at he
        | visitErrorMsg s => simp [PyExc.isVisitErr] at he
        | syntaxError m c => simp [wrapK, find_embedded]
        | runtimeError s => simp [wrapK, find_embedded]
        | other s => simp [wrapK, find_embedded]
    | succ k ih =>
        intro e he
        simp only [wrapK, find_embedded]
        exact ih e he
  · intro cfg st n f e fuel hdv hiv hpre hf
    simp [visitRootF, visitNodeF, visitFnPre, hpre, hdv, hiv, hf]

/-- Witness for `visit_error_wrapping` at concrete inputs. -/
theorem visit_error_wrapping_witness :
    visitNodeF
        { preTable := [("A", fun _ => .error (.other "boom"))],
          postTable := [], checkVisitAllowed := fun _ => true }
        2 initVisState (SNode.mk 1 "A" false true none none []) =
      .error (.visitError (some (.other "boom"))) ∧
    visitNodeF
        { preTable := [],
          postTable := [("A", fun _ =>
            .error (.syntaxError "re-definition of local name" 11))],
          checkVisitAllowed := fun _ => true }
        2 initVisState (SNode.mk 1 "A" false true none none []) =
      .error (.visitError (some
        (.syntaxError "re-definition of local name" 11))) ∧
    find_embedded (some (wrapK 3 (.other "boom"))) = .other "boom" ∧
    checkerVisitEx (α := VisState × SVal)
        (.error (.visitError (some
          (.syntaxError "re-definition of local name" 11)))) =
      .error (.syntaxError "re-definition of local name" 11) ∧
    visitRootF
        { preTable := [("A", fun _ => .error (.other "boom"))],
          postTable := [], checkVisitAllowed := fun _ => true }
        2 initVisState (SNode.mk 1 "A" false true none none []) =
      .error (.visitError (some (.other "boom"))) := by
  refine ⟨?_, ?_, ?_, ?_, ?_⟩
  · exact visit_error_wrapping.1
      { preTable := [("A", fun _ => .error (.other "boom"))],
        postTable := [], checkVisitAllowed := fun _ => true }
      initVisState (SNode.mk 1 "A" false true none none [])
      (fun _ => .error (.other "boom")) (.other "boom") 1 rfl rfl rfl rfl
  · exact visit_error_wrapping.2.1
      { preTable := [],
        postTable := [("A", fun _ =>
          .error (.syntaxError "re-definition of local name" 11))],
        checkVisitAllowed := fun _ => true }
      initVisState initVisState (SNode.mk 1 "A" false true none none [])
      (SNode.mk 1 "A" false true none none [])
      (fun _ => .error (.syntaxError "re-definition of local name" 11))
      (.syntaxError "re-definition of local name" 11) 1
      rfl rfl rfl rfl rfl rfl rfl rfl rfl
  · exact visit_error_wrapping.2.2.1 3 (.other "boom") rfl
  · exact visit_error_wrapping.2.2.2.2.1
      "re-definition of local name" 11
  · exact visit_error_wrapping.2.2.2.2.2.2
      { preTable := [("A", fun _ => .error (.other "boom"))],
        postTable := [], checkVisitAllowed := fun _ => true }
      initVisState (SNode.mk 1 "A" false true none none [])
      (fun _ => .error (.other "boom")) (.other "boom") 1 rfl rfl rfl rfl

/-! ## Claim C9: configuration guard of the exclusive visitor -/

/-- Claim C9: while a traversal is in progress (`_visiting` is set
between entry to and return from `visit`), `add_disallowed_prefixes` and
`add_allowed_prefixes` raise a configuration error (a `VisitError`
carrying the message) and leave the prefix sets unchanged — the raise
precedes any mutation, so the state alongside the error is the input
state; with no traversal active the same calls succeed, added prefixes
are present afterwards, and previously present ones are kept. -/
theorem prefix_config_guard (v : ExclVisitor) (ps : List String) :
    (v.visiting = true →
      add_disallowed_prefixes v ps =
        (v, some (.visitErrorMsg
          "cannot alter disallowed prefixes while visiting")) ∧
      add_allowed_prefixes v ps =
        (v, some (.visitErrorMsg
          "cannot alter allowed prefixes while visiting"))) ∧
    (v.visiting = false →
      (add_disallowed_prefixes v ps).2 = none ∧
      (add_allowed_prefixes v ps).2 = none ∧
      (∀ p, p ∈ ps → p ∈ (add_disallowed_prefixes v ps).1.notAllowed) ∧
      (∀ p, p ∈ v.notAllowed →
        p ∈ (add_disallowed_prefixes v ps).1.notAllowed) ∧
      (∀ p, p ∈ ps → p ∈ (add_allowed_prefixes v ps).1.allowedVisits) ∧
      (∀ p, p ∈ v.allowedVisits →
        p ∈ (add_allowed_prefixes v ps).1.allowedVisits)) := by
  constructor
  · intro hv
    constructor
    · simp [add_disallowed_prefixes, hv]
    · simp [add_allowed_prefixes, hv]
  · intro hv
    refine ⟨by simp [add_disallowed_prefixes, hv],
      by simp [add_allowed_prefixes, hv], ?_, ?_, ?_, ?_⟩
    · intro p hp
      simp only [add_disallowed_prefixes, hv, Bool.false_eq_true,
        if_false]
      exact mem_addToSet_of_mem hp
    · intro p hp
      simp only [add_disallowed_prefixes, hv, Bool.false_eq_true,
        if_false]
      exact mem_addToSet_of_base hp
    · intro p hp
      simp only [add_allowed_prefixes, hv, Bool.false_eq_true, if_false]
      exact mem_addToSet_of_mem hp
    · intro p hp
      simp only [add_allowed_prefixes, hv, Bool.false_eq_true, if_false]
      exact mem_addToSet_of_base hp

/-- Witness for `prefix_config_guard` at concrete inputs. -/
theorem prefix_config_guard_witness :
    add_disallowed_prefixes
        { visiting := true, notAllowed := ["tx"], allowedVisits := [] }
        ["sp"] =
      ({ visiting := true, notAllowed := ["tx"], allowedVisits := [] },
        some (.visitErrorMsg
          "cannot alter disallowed prefixes while visiting")) ∧
    (add_disallowed_prefixes
        { visiting := false, notAllowed := ["tx"], allowedVisits := [] }
        ["sp"]).2 = none ∧
    "sp" ∈ (add_disallowed_prefixes
        { visiting := false, notAllowed := ["tx"], allowedVisits := [] }
        ["sp"]).1.notAllowed := by
  have h1 := (prefix_config_guard
    { visiting := true, notAllowed := ["tx"], allowedVisits := [] }
    ["sp"]).1 rfl
  have h2 := (prefix_config_guard
    { visiting := false, notAllowed := ["tx"], allowedVisits := [] }
    ["sp"]).2 rfl
  exact ⟨h1.1, h2.1, h2.2.2.1 "sp" (by decide)⟩

/-! ## Claim C10: root nodes cannot be re-parented -/

/-- Claim C10: a node constructed with `root_node=True`, once
initialization completes, silently ignores every assignment to its
`parent` property (no error is raised — the setter is total — and the
stored reference stays `None`); in particular the visitor's re-parenting
step (used by slot assignment and by splices) never re-parents it — it
only sets `parent_key`. -/
theorem root_parent_assignment_ignored (nid : Nat) (cls : String)
    (slots : List (String × SVal)) :
    (∀ v, parentSetter (initNode true nid cls slots) v =
      initNode true nid cls slots) ∧
    (initNode true nid cls slots).parentRef = none ∧
    (∀ p k, (reparent (initNode true nid cls slots) p k).parentRef =
      none) := by
  refine ⟨?_, ?_, ?_⟩
  · intro v
    simp [parentSetter, initNode, SNode.initialized, SNode.root]
  · simp [initNode, SNode.parentRef]
  · intro p k
    simp [reparent, parentSetter, initNode, SNode.initialized, SNode.root,
      SNode.withParentKey, SNode.parentRef]

/-- Witness for `collect_symbol_redefinition` at concrete inputs. -/
theorem collect_symbol_redefinition_witness :
    (collect_symbol (fun _ => true)
        (collect_symbol (fun _ => true) initChkState "a" 3 false false).1
        "a" 4 false false).2 = some (.globalRedefined "a") ∧
    (collect_symbol (fun _ => true)
        (collect_symbol (fun _ => true) (enter_scope initChkState 9) "a" 3
            false false).1
        "a" 4 false false).2 = some (.localRedefined "a") := by
  have h := collect_symbol_redefinition (fun _ => true) "a" 3 4
    initChkState (enter_scope initChkState 9) rfl rfl rfl
    (by simp [enter_scope, initChkState, lookupA]) rfl
  exact ⟨h.1.2.2.1, h.2.2.2.1⟩

end Scoff
